import Mathlib

/-!
Verification development for the Crazy Eights game core
(src/src/types.ts and src/src/App.tsx).

The definitions below are a shallow embedding of the game data model and of
the state-transition functions of the source: initGame, drawCard, playCard,
selectSuit, the computer-opponent candidate filtering and hard-difficulty
card choice, and the presentation-level gating that decides when the human
can actually trigger a play or a suit choice.

Fallible code paths (array access on a possibly-undefined element, the
initial-discard loop that could cycle forever on a degenerate deck) are
embedded with Option. Lists model JS arrays; push appends at the tail,
pop removes the tail element, unshift inserts at the head.
-/

/-- Suit enumeration from types.ts, in source declaration order. -/
inductive Suit where
  | hearts
  | diamonds
  | clubs
  | spades
deriving DecidableEq, Repr, Inhabited

/-- Rank enumeration from types.ts. -/
inductive Rank where
  | two
  | three
  | four
  | five
  | six
  | seven
  | eight
  | nine
  | ten
  | jack
  | queen
  | king
  | ace
deriving DecidableEq, Repr, Inhabited

/-- String value of a Suit, as in the types.ts enum. -/
def suitStr : Suit → String
  | .hearts => "hearts"
  | .diamonds => "diamonds"
  | .clubs => "clubs"
  | .spades => "spades"

/-- String value of a Rank, as in the types.ts enum. -/
def rankStr : Rank → String
  | .two => "2"
  | .three => "3"
  | .four => "4"
  | .five => "5"
  | .six => "6"
  | .seven => "7"
  | .eight => "8"
  | .nine => "9"
  | .ten => "10"
  | .jack => "J"
  | .queen => "Q"
  | .king => "K"
  | .ace => "A"

/-- Card interface from types.ts: an id string plus suit and rank. -/
structure Card where
  id : String
  suit : Suit
  rank : Rank
deriving DecidableEq, Repr, Inhabited

/-- GameStatus from types.ts. -/
inductive GameStatus where
  | waiting
  | playing
  | choosing_suit
  | game_over
deriving DecidableEq, Repr, Inhabited

/-- The two sides, the values of the turn and winner fields. -/
inductive Side where
  | player
  | ai
deriving DecidableEq, Repr, Inhabited

/-- Difficulty from types.ts. -/
inductive Difficulty where
  | easy
  | normal
  | hard
deriving DecidableEq, Repr, Inhabited

/-- GameState from types.ts (winner is an Option since it can be null). -/
structure GameState where
  deck : List Card
  playerHand : List Card
  aiHand : List Card
  discardPile : List Card
  currentSuit : Option Suit
  turn : Side
  status : GameStatus
  winner : Option Side
  difficulty : Difficulty
deriving DecidableEq, Repr, Inhabited

/-- SUITS constant of App.tsx. -/
def SUITS : List Suit := [.hearts, .diamonds, .clubs, .spades]

/-- RANKS constant of App.tsx (note: ace first, then two through king). -/
def RANKS : List Rank :=
  [.ace, .two, .three, .four, .five, .six, .seven, .eight, .nine, .ten, .jack, .queen, .king]

/-- The id string assigned at deck creation: rank string, dash, suit string. -/
def cardId (r : Rank) (s : Suit) : String := rankStr r ++ "-" ++ suitStr s

/-- createDeck of App.tsx: for each suit, for each rank, push the card. -/
def createDeck : List Card :=
  (SUITS.map (fun s => RANKS.map (fun r => { id := cardId r s, suit := s, rank := r }))).flatten

/-- The side opposite to the given one (the target-dependent turn flip in the source). -/
def otherSide : Side → Side
  | .player => .ai
  | .ai => .player

/-- The hand field selected by the isPlayer branch in drawCard and playCard. -/
def handOf (st : GameState) : Side → List Card
  | .player => st.playerHand
  | .ai => st.aiHand

/-- Writing back the hand field selected by the isPlayer branch. -/
def setHand (st : GameState) : Side → List Card → GameState
  | .player, h => { st with playerHand := h }
  | .ai, h => { st with aiHand := h }

/-- The per-suit tally the source builds by a forEach increment over a hand
(counts record in the AI eight branch of playCard and in the hard branch). -/
def countSuit (hand : List Card) (s : Suit) : Nat :=
  hand.countP (fun c => decide (c.suit = s))

/-- Object.entries of the counts record, in insertion order
hearts, diamonds, clubs, spades (App.tsx lines 257 to 259). -/
def suitEntries (hand : List Card) : List (Suit × Nat) :=
  [(Suit.hearts, countSuit hand Suit.hearts), (Suit.diamonds, countSuit hand Suit.diamonds),
   (Suit.clubs, countSuit hand Suit.clubs), (Suit.spades, countSuit hand Suit.spades)]

/-- The AI suit choice after playing an eight (App.tsx line 261):
reduce over the entries keeping a when a is strictly greater, else taking b.
The empty case of the match is unreachable since the entries list has four
elements; the JS reduce starts from the first entry. -/
def aiChooseSuit (hand : List Card) : Suit :=
  match suitEntries hand with
  | [] => Suit.hearts
  | e :: es => (es.foldl (fun a b => if a.2 > b.2 then a else b) e).1

/-- The canPlay check inside drawCard (App.tsx lines 215 to 217). -/
def drawSiteCanPlay (drawn topCard : Card) (cs : Option Suit) : Bool :=
  decide (drawn.rank = Rank.eight) || decide (drawn.rank = topCard.rank) ||
    decide (cs = some drawn.suit)

/-- The playable-card filter condition in the AI effect (App.tsx lines 295 to 299). -/
def aiSiteCanPlay (c topCard : Card) (cs : Option Suit) : Bool :=
  decide (c.rank = Rank.eight) || decide (c.rank = topCard.rank) ||
    decide (cs = some c.suit)

/-- The per-card playability computed while rendering the human hand
(App.tsx lines 454 to 458), without the turn conjunct.  The top card is
optional there (topDiscard may be undefined; comparing a rank against
undefined is false). -/
def humanSiteCanPlay (c : Card) (topCard? : Option Card) (cs : Option Suit) : Bool :=
  decide (c.rank = Rank.eight) ||
    (match topCard? with
     | some t => decide (c.rank = t.rank)
     | none => false) ||
    decide (cs = some c.suit)

/-- Modelled from the spec: the Rule Engine pure predicate
isPlayable(card, topCard, currentSuit), stated with a plain Suit argument as
in section 4.2, used to compare the three source sites against the spec. -/
def isPlayable (card topCard : Card) (currentSuit : Suit) : Bool :=
  decide (card.rank = Rank.eight) || decide (card.rank = topCard.rank) ||
    decide (card.suit = currentSuit)

/-- The initial-discard loop of initGame (App.tsx lines 175 to 179):
pop a card from the deck tail; while it is an eight, unshift it at the head
and pop again.  Fuel bounds the number of iterations; the caller passes the
deck length, which suffices whenever the deck holds any non-eight card.
A none result models the loop failing (empty deck or only eights). -/
def findNonEight : Nat → List Card → Option (List Card × Card)
  | 0, _ => none
  | fuel + 1, deck =>
    match deck.getLast? with
    | none => none
    | some c =>
      if c.rank = Rank.eight then findNonEight fuel (c :: deck.dropLast)
      else some (deck.dropLast, c)

/-- initGame of App.tsx (lines 169 to 193), parameterized by the already
shuffled deck: splice 8 cards to the player, 8 to the AI, then draw the
initial discard from the tail, rotating eights to the head. -/
def initGame (fullDeck : List Card) (difficulty : Difficulty) : Option GameState :=
  let playerHand := fullDeck.take 8
  let rest := fullDeck.drop 8
  let aiHand := rest.take 8
  let deck0 := rest.drop 8
  match findNonEight deck0.length deck0 with
  | none => none
  | some (deck1, initialDiscard) =>
    some { deck := deck1
           playerHand := playerHand
           aiHand := aiHand
           discardPile := [initialDiscard]
           currentSuit := some initialDiscard.suit
           turn := Side.player
           status := GameStatus.playing
           winner := none
           difficulty := difficulty }

/-- drawCard of App.tsx (lines 195 to 228).  none models the crash that the
source would hit reading the rank of an undefined top card (nonempty deck,
empty discard pile).  With an empty deck the turn of the current state is
flipped; otherwise the tail card moves to the target hand and the turn is
kept exactly when the drawn card passes the canPlay check. -/
def drawCard (st : GameState) (target : Side) : Option GameState :=
  if st.deck.length = 0 then
    some { st with turn := otherSide st.turn }
  else
    match st.deck.getLast? with
    | none => none
    | some drawnCard =>
      match st.discardPile.getLast? with
      | none => none
      | some topCard =>
        some { setHand st target (handOf st target ++ [drawnCard]) with
               deck := st.deck.dropLast
               turn := if drawSiteCanPlay drawnCard topCard st.currentSuit then st.turn
                       else otherSide target }

/-- playCard of App.tsx (lines 230 to 277).  The target hand is filtered by
card id, the card is appended to the discard pile; an emptied hand ends the
game at once, otherwise an eight either awaits the human suit choice or is
answered by the AI heuristic, and the turn passes to the other side. -/
def playCard (st : GameState) (card : Card) (target : Side) : GameState :=
  let newHand := (handOf st target).filter (fun c => decide (c.id ≠ card.id))
  let newDiscardPile := st.discardPile ++ [card]
  if newHand = [] then
    { setHand st target newHand with
      discardPile := newDiscardPile
      status := GameStatus.game_over
      winner := some target }
  else
    let nextStatus : GameStatus :=
      if card.rank = Rank.eight ∧ target = Side.player then GameStatus.choosing_suit
      else GameStatus.playing
    let nextSuit : Suit :=
      if card.rank = Rank.eight ∧ target = Side.ai then aiChooseSuit newHand else card.suit
    { setHand st target newHand with
      discardPile := newDiscardPile
      currentSuit := some nextSuit
      status := nextStatus
      turn := otherSide target }

/-- selectSuit of App.tsx (lines 279 to 287): unconditional field update. -/
def selectSuit (st : GameState) (suit : Suit) : GameState :=
  { st with currentSuit := some suit, status := GameStatus.playing, turn := Side.ai }

/-- isPlayerTurn derived value (App.tsx line 340). -/
def isPlayerTurnB (st : GameState) : Bool :=
  decide (st.turn = Side.player) && decide (st.status = GameStatus.playing)

/-- The full gating computed for each rendered hand card (App.tsx lines
453 to 458): player turn and playing status, and the card playability. -/
def humanCardPlayable (st : GameState) (c : Card) : Bool :=
  isPlayerTurnB st && humanSiteCanPlay c st.discardPile.getLast? st.currentSuit

/-- The only path by which the human can invoke playCard: the hand map in the
render (App.tsx lines 453 to 470) wires an onClick for a card of the player
hand, and the Card component attaches it only when the card is playable
(App.tsx line 110, onClick gated on isPlayable).  Any other attempt leaves
the state untouched. -/
def attemptHumanPlay (st : GameState) (c : Card) : GameState :=
  if c ∈ st.playerHand ∧ humanCardPlayable st c = true then playCard st c Side.player else st

/-- The only path by which the human can invoke selectSuit: the suit-picker
modal is rendered only while status is choosing_suit (App.tsx lines 549
and 561).  Any other attempt leaves the state untouched. -/
def attemptChooseSuit (st : GameState) (suit : Suit) : GameState :=
  if st.status = GameStatus.choosing_suit then selectSuit st suit else st

/-- The playable-card filter of the AI effect (App.tsx lines 295 to 299). -/
def aiPlayableCards (aiHand : List Card) (topCard : Card) (cs : Option Suit) : List Card :=
  aiHand.filter (fun c => aiSiteCanPlay c topCard cs)

/-- The hard-difficulty selection (App.tsx lines 311 to 326): among the
playable cards, filter out eights; if any non-eight remains, reduce keeping
the previous candidate unless the current one has a strictly more frequent
suit in the full AI hand; otherwise play the first playable card (an eight).
none is returned when there is no playable card at all (the effect then
draws instead). -/
def hardPick (aiHand playableCards : List Card) : Option Card :=
  match playableCards with
  | [] => none
  | p :: ps =>
    match (p :: ps).filter (fun c => decide (c.rank ≠ Rank.eight)) with
    | [] => some p
    | q :: qs =>
      some (qs.foldl (fun prev curr =>
        if countSuit aiHand curr.suit > countSuit aiHand prev.suit then curr else prev) q)

/-- The remaining AI hand after playCard removes a card by id. -/
def aiRemaining (st : GameState) (c : Card) : List Card :=
  st.aiHand.filter (fun x => decide (x.id ≠ c.id))

/-- Position of a suit in the enumeration order hearts, diamonds, clubs, spades. -/
def suitIndex : Suit → Nat
  | .hearts => 0
  | .diamonds => 1
  | .clubs => 2
  | .spades => 3

/-- Concatenation of every card zone of a state. -/
def allCards (st : GameState) : List Card :=
  st.deck ++ st.playerHand ++ st.aiHand ++ st.discardPile

/-- States reachable by the operations of the state machine, starting from a
fresh deal of some shuffle of the full deck.  A play step carries the fact
that the played card belongs to the hand of the side playing it, which is how
both invocation sites of playCard behave (the render passes an element of the
player hand, the AI effect an element of the filtered AI hand). -/
inductive Reachable : GameState → Prop where
  | start (d : Difficulty) (fullDeck : List Card) (st : GameState)
      (hperm : fullDeck.Perm createDeck) (hinit : initGame fullDeck d = some st) :
      Reachable st
  | draw (st st' : GameState) (t : Side) (hr : Reachable st)
      (hd : drawCard st t = some st') : Reachable st'
  | play (st : GameState) (c : Card) (t : Side) (hr : Reachable st)
      (hc : c ∈ handOf st t) : Reachable (playCard st c t)
  | choose (st : GameState) (s : Suit) (hr : Reachable st) : Reachable (selectSuit st s)

/-- The opposite side differs from the side itself. -/
theorem otherSide_ne (s : Side) : otherSide s ≠ s := by cases s <;> simp [otherSide]

/-- Ace of hearts fixture card. -/
def cAh : Card := { id := "A-hearts", suit := .hearts, rank := .ace }

/-- King of spades fixture card. -/
def cKs : Card := { id := "K-spades", suit := .spades, rank := .king }

/-- Eight of clubs fixture card. -/
def c8c : Card := { id := "8-clubs", suit := .clubs, rank := .eight }

/-- Five of clubs fixture card. -/
def c5c : Card := { id := "5-clubs", suit := .clubs, rank := .five }

/-- Queen of diamonds fixture card. -/
def cQd : Card := { id := "Q-diamonds", suit := .diamonds, rank := .queen }

/-- Nine of hearts fixture card. -/
def c9h : Card := { id := "9-hearts", suit := .hearts, rank := .nine }

/-- Five of hearts fixture card. -/
def c5h : Card := { id := "5-hearts", suit := .hearts, rank := .five }

/-- Two of spades fixture card. -/
def c2s : Card := { id := "2-spades", suit := .spades, rank := .two }

/-- Seven of diamonds fixture card. -/
def c7d : Card := { id := "7-diamonds", suit := .diamonds, rank := .seven }

/-- A mid-game fixture state on the player turn with an unplayable hand card. -/
def stPlaying : GameState :=
  { deck := []
    playerHand := [cAh]
    aiHand := [cQd]
    discardPile := [c5c]
    currentSuit := some Suit.clubs
    turn := Side.player
    status := GameStatus.playing
    winner := none
    difficulty := Difficulty.normal }

/-- A fixture state waiting for the human suit choice. -/
def stChoosing : GameState := { stPlaying with status := GameStatus.choosing_suit }

/-- A fixture state on the AI turn where the AI holds an eight and two cards
of suits that are tied in frequency. -/
def stC7 : GameState :=
  { deck := []
    playerHand := [cQd]
    aiHand := [c8c, cAh, cKs]
    discardPile := [c5c]
    currentSuit := some Suit.clubs
    turn := Side.ai
    status := GameStatus.playing
    winner := none
    difficulty := Difficulty.normal }

/-- A fixture state where the AI holds a single card, an eight. -/
def stLastAI : GameState := { stC7 with aiHand := [c8c] }

/-- A fixture state with one card left in the deck, on the player turn. -/
def stDraw : GameState := { stPlaying with deck := [cQd] }

/-- Claim C2: at every playability-decision site (human-move validation in the
render, the draw-then-check inside drawCard, and the AI candidate filter) a
card is deemed playable iff its rank is eight, or its rank equals the rank of
the top discard card, or its suit equals currentSuit; the three sites compute
the same side-effect-free predicate, which agrees with the Rule Engine
predicate of the spec. -/
theorem C2_playability_single_predicate (c topCard : Card) (cs : Option Suit) (s : Suit) :
    drawSiteCanPlay c topCard cs = aiSiteCanPlay c topCard cs ∧
    aiSiteCanPlay c topCard cs = humanSiteCanPlay c (some topCard) cs ∧
    (aiSiteCanPlay c topCard cs = true ↔
      (c.rank = Rank.eight ∨ c.rank = topCard.rank ∨ cs = some c.suit)) ∧
    drawSiteCanPlay c topCard (some s) = isPlayable c topCard s := by
  refine ⟨rfl, rfl, by simp [aiSiteCanPlay, or_assoc], ?_⟩
  have h : (some s = some c.suit) = (c.suit = s) := by
    simp only [Option.some.injEq, eq_comm]
  simp only [drawSiteCanPlay, isPlayable, h]

/-- Claim C9: a human suit choice is only effective while the status is
choosing_suit, where it sets currentSuit, returns the status to playing and
passes the turn to the AI; in any other status the attempt leaves the state
unchanged (the suit-picker modal is only rendered in choosing_suit). -/
theorem C9_choose_suit_guarded (st : GameState) (s : Suit) :
    (st.status = GameStatus.choosing_suit →
      attemptChooseSuit st s =
        { st with currentSuit := some s, status := GameStatus.playing, turn := Side.ai }) ∧
    (st.status ≠ GameStatus.choosing_suit → attemptChooseSuit st s = st) := by
  constructor
  · intro h
    simp [attemptChooseSuit, h, selectSuit]
  · intro h
    simp [attemptChooseSuit, h]

/-- Witness for C9 at two concrete states, one in choosing_suit and one not. -/
theorem C9_witness :
    attemptChooseSuit stChoosing Suit.hearts =
      { stChoosing with
        currentSuit := some Suit.hearts
        status := GameStatus.playing
        turn := Side.ai } ∧
    attemptChooseSuit stPlaying Suit.hearts = stPlaying :=
  ⟨(C9_choose_suit_guarded stChoosing Suit.hearts).1 rfl,
   (C9_choose_suit_guarded stPlaying Suit.hearts).2 (by decide)⟩

/-- Claim C3: a human attempt to play a card that is not in the player hand,
or that is not playable against the top discard card and currentSuit, leaves
the state unchanged (the attempt path wires a click handler only for rendered
hand cards that pass the playability gate). -/
theorem C3_illegal_play_rejected (st : GameState) (c : Card)
    (h : c ∉ st.playerHand ∨
      (c.rank ≠ Rank.eight ∧
        (∀ topCard, st.discardPile.getLast? = some topCard → c.rank ≠ topCard.rank) ∧
        st.currentSuit ≠ some c.suit)) :
    attemptHumanPlay st c = st := by
  rw [attemptHumanPlay, if_neg]
  rintro ⟨hc, hp⟩
  rcases h with h | ⟨h1, h2, h3⟩
  · exact h hc
  · simp only [humanCardPlayable, humanSiteCanPlay] at hp
    cases hL : st.discardPile.getLast? with
    | none => simp [hL, h1, h3] at hp
    | some t =>
      have ht := h2 t hL
      simp [hL, h1, ht, h3] at hp

/-- Witness for C3: the ace of hearts against a five of clubs top with
currentSuit clubs is unplayable, and attempting it changes nothing. -/
theorem C3_witness : attemptHumanPlay stPlaying cAh = stPlaying :=
  C3_illegal_play_rejected stPlaying cAh
    (Or.inr ⟨by decide,
      by
        intro t ht
        have h5 : stPlaying.discardPile.getLast? = some c5c := rfl
        rw [h5] at ht
        cases Option.some.inj ht
        decide,
      by decide⟩)

/-- Claim C5: playing the last card of a hand ends the game at once with the
playing side as winner, leaving currentSuit and turn untouched and never
entering choosing_suit, even when that last card is an eight. -/
theorem C5_last_card_wins (st : GameState) (c : Card) (t : Side)
    (h : (handOf st t).filter (fun x => decide (x.id ≠ c.id)) = []) :
    (playCard st c t).status = GameStatus.game_over ∧
    (playCard st c t).winner = some t ∧
    handOf (playCard st c t) t = [] ∧
    (playCard st c t).discardPile = st.discardPile ++ [c] ∧
    (playCard st c t).currentSuit = st.currentSuit ∧
    (playCard st c t).turn = st.turn := by
  cases t <;>
    · simp only [handOf] at h
      have h' := h
      simp at h'
      simp only [playCard, handOf]
      rw [if_pos h]
      simp [setHand, h]
      exact h'

/-- Witness for C5: the AI plays its single remaining card, an eight; the
game is over at once with no suit change. -/
theorem C5_witness :
    (playCard stLastAI c8c Side.ai).status = GameStatus.game_over ∧
    (playCard stLastAI c8c Side.ai).winner = some Side.ai ∧
    handOf (playCard stLastAI c8c Side.ai) Side.ai = [] ∧
    (playCard stLastAI c8c Side.ai).discardPile = stLastAI.discardPile ++ [c8c] ∧
    (playCard stLastAI c8c Side.ai).currentSuit = stLastAI.currentSuit ∧
    (playCard stLastAI c8c Side.ai).turn = stLastAI.turn :=
  C5_last_card_wins stLastAI c8c Side.ai (by decide)

/-- Claim C10: playCard performs no validation: for every state and card it
appends the given card to the discard pile (which grows by exactly one), and
the target hand is only filtered by card id while the other hand is left
alone; when the filtered hand is nonempty the turn passes to the other side
and currentSuit is updated (to the heuristic suit for an AI eight, otherwise
to the suit of the played card), whether or not the card was in the hand. -/
theorem C10_playCard_unconditional_mutation (st : GameState) (c : Card) (t : Side) :
    (playCard st c t).discardPile = st.discardPile ++ [c] ∧
    (playCard st c t).discardPile.length = st.discardPile.length + 1 ∧
    handOf (playCard st c t) t = (handOf st t).filter (fun x => decide (x.id ≠ c.id)) ∧
    handOf (playCard st c t) (otherSide t) = handOf st (otherSide t) ∧
    ((handOf st t).filter (fun x => decide (x.id ≠ c.id)) ≠ [] →
      (playCard st c t).turn = otherSide t ∧
      (playCard st c t).currentSuit =
        some (if c.rank = Rank.eight ∧ t = Side.ai
              then aiChooseSuit ((handOf st t).filter (fun x => decide (x.id ≠ c.id)))
              else c.suit)) := by
  refine ⟨?_, ?_, ?_, ?_, ?_⟩
  · cases t <;>
      · simp only [playCard, handOf]
        split <;> simp [setHand]
  · cases t <;>
      · simp only [playCard, handOf]
        split <;> simp [setHand]
  · cases t <;>
      · simp only [playCard, handOf]
        split <;> simp [setHand, handOf]
  · cases t <;>
      · simp only [playCard, handOf, otherSide]
        split <;> simp [setHand, handOf]
  · intro hne
    cases t <;>
      · simp only [handOf] at hne
        simp only [playCard, handOf, otherSide]
        rw [if_neg hne]
        simp [setHand]

/-- Witness for C10: playing a card that is not in the player hand still
appends it to the discard pile, leaves the hand as its id-filter, updates
currentSuit to the card suit and passes the turn. -/
theorem C10_witness :
    (playCard stPlaying cKs Side.player).discardPile = stPlaying.discardPile ++ [cKs] ∧
    (playCard stPlaying cKs Side.player).turn = otherSide Side.player ∧
    (playCard stPlaying cKs Side.player).currentSuit = some cKs.suit := by
  have h := C10_playCard_unconditional_mutation stPlaying cKs Side.player
  have h5 := h.2.2.2.2 (by decide)
  refine ⟨h.1, h5.1, ?_⟩
  rw [h5.2]
  decide

/-- Claim C6: with an empty deck a draw changes nothing but the turn, which
flips to the other side; otherwise the tail card of the deck moves to the end
of the target hand, and (when the draw happens on the turn of the target, as
both call sites do) the target keeps the turn exactly when the drawn card is
playable against the top discard card and currentSuit. -/
theorem C6_draw_behavior (st : GameState) (t : Side) :
    (st.deck = [] → drawCard st t = some { st with turn := otherSide st.turn }) ∧
    (∀ ys a topCard, st.deck = ys ++ [a] → st.discardPile.getLast? = some topCard →
      drawCard st t = some { setHand st t (handOf st t ++ [a]) with
        deck := ys
        turn := if drawSiteCanPlay a topCard st.currentSuit then st.turn
                else otherSide t } ∧
      (st.turn = t →
        ((if drawSiteCanPlay a topCard st.currentSuit then st.turn else otherSide t) = t ↔
          drawSiteCanPlay a topCard st.currentSuit = true))) := by
  constructor
  · intro h
    simp [drawCard, h]
  · intro ys a topCard hdeck htop
    constructor
    · simp only [drawCard, hdeck, htop, List.getLast?_concat, List.dropLast_concat,
        List.length_append, List.length_singleton]
      simp
    · intro ht
      by_cases hcp : drawSiteCanPlay a topCard st.currentSuit = true
      · simp [hcp, ht]
      · simp only [Bool.not_eq_true] at hcp
        simp [hcp, otherSide_ne t]

/-- Witness for C6 at two concrete states: an empty-deck draw that only flips
the turn, and a one-card draw of an unplayable card that passes the turn. -/
theorem C6_witness :
    drawCard stPlaying Side.player = some { stPlaying with turn := otherSide stPlaying.turn } ∧
    drawCard stDraw Side.player = some { setHand stDraw Side.player
        (handOf stDraw Side.player ++ [cQd]) with
      deck := []
      turn := if drawSiteCanPlay cQd c5c stDraw.currentSuit then stDraw.turn
              else otherSide Side.player } ∧
    ((if drawSiteCanPlay cQd c5c stDraw.currentSuit then stDraw.turn
      else otherSide Side.player) = Side.player ↔
      drawSiteCanPlay cQd c5c stDraw.currentSuit = true) := by
  have h1 := (C6_draw_behavior stPlaying Side.player).1 rfl
  have h2 := (C6_draw_behavior stDraw Side.player).2 [] cQd c5c rfl rfl
  exact ⟨h1, h2.1, h2.2 rfl⟩

/-- The suit returned by the AI eight heuristic has a maximal count in the
hand, and among equally frequent suits it is the one occurring last in the
enumeration order hearts, diamonds, clubs, spades (the reduce keeps the
accumulator only on a strictly greater count, so later entries win ties). -/
theorem aiChooseSuit_spec (hand : List Card) :
    (∀ u : Suit, countSuit hand u ≤ countSuit hand (aiChooseSuit hand)) ∧
    (∀ u : Suit, countSuit hand u = countSuit hand (aiChooseSuit hand) →
      suitIndex u ≤ suitIndex (aiChooseSuit hand)) := by
  simp only [aiChooseSuit, suitEntries, List.foldl_cons, List.foldl_nil]
  split_ifs with h1 h2 h3 h4 h5 h6 h7 <;>
    (constructor <;> intro u <;> cases u <;> simp_all [suitIndex] <;> omega)

/-- Claim C7 (amended): when the AI plays an eight and keeps at least one
card, the new currentSuit is a suit of maximal frequency among the cards
remaining in the AI hand, but ties between equally frequent suits are broken
in favor of the LAST such suit in the enumeration order hearts, diamonds,
clubs, spades (not the first, as the claim states); the turn passes to the
player and the status stays playing. -/
theorem C7_ai_eight_suit (st : GameState) (c : Card)
    (h8 : c.rank = Rank.eight) (hne : aiRemaining st c ≠ []) :
    (playCard st c Side.ai).turn = Side.player ∧
    (playCard st c Side.ai).status = GameStatus.playing ∧
    (playCard st c Side.ai).currentSuit = some (aiChooseSuit (aiRemaining st c)) ∧
    (∀ u : Suit, countSuit (aiRemaining st c) u ≤
      countSuit (aiRemaining st c) (aiChooseSuit (aiRemaining st c))) ∧
    (∀ u : Suit, countSuit (aiRemaining st c) u =
        countSuit (aiRemaining st c) (aiChooseSuit (aiRemaining st c)) →
      suitIndex u ≤ suitIndex (aiChooseSuit (aiRemaining st c))) := by
  have hs := aiChooseSuit_spec (aiRemaining st c)
  have hne' : st.aiHand.filter (fun x => decide (x.id ≠ c.id)) ≠ [] := hne
  refine ⟨?_, ?_, ?_, hs.1, hs.2⟩ <;>
    · simp only [playCard, handOf, otherSide]
      rw [if_neg hne']
      try simp [setHand, h8, aiRemaining, handOf]

/-- Witness for C7 at the fixture state: the AI plays the eight of clubs and
keeps the ace of hearts and king of spades. -/
theorem C7_witness :
    (playCard stC7 c8c Side.ai).turn = Side.player ∧
    (playCard stC7 c8c Side.ai).currentSuit = some (aiChooseSuit (aiRemaining stC7 c8c)) :=
  ⟨(C7_ai_eight_suit stC7 c8c rfl (by decide)).1,
   (C7_ai_eight_suit stC7 c8c rfl (by decide)).2.2.1⟩

/-- Counterexample to C7 as stated: with the remaining AI hand ace of hearts
and king of spades, hearts and spades are tied in frequency and hearts comes
first in enumeration order, yet the chosen suit is spades. -/
theorem C7_counterexample :
    (playCard stC7 c8c Side.ai).currentSuit = some Suit.spades ∧
    (playCard stC7 c8c Side.ai).currentSuit ≠ some Suit.hearts ∧
    countSuit (aiRemaining stC7 c8c) Suit.hearts =
      countSuit (aiRemaining stC7 c8c) Suit.spades ∧
    suitIndex Suit.hearts < suitIndex Suit.spades := by decide

/-- The reduce pattern of the hard branch, abstracted over the scoring
function: keep the accumulator unless the current element scores strictly
higher. -/
def pickMax (f : Card → Nat) (a : Card) (l : List Card) : Card :=
  l.foldl (fun prev curr => if f curr > f prev then curr else prev) a

theorem pickMax_cons_pos (f : Card → Nat) (a b : Card) (tl : List Card) (h : f b > f a) :
    pickMax f a (b :: tl) = pickMax f b tl := by
  simp [pickMax, h]

theorem pickMax_cons_neg (f : Card → Nat) (a b : Card) (tl : List Card) (h : ¬ f b > f a) :
    pickMax f a (b :: tl) = pickMax f a tl := by
  simp [pickMax, h]

/-- The reduce keeps the FIRST element of maximal score: the list splits
around the result, everything before it scores strictly less, everything
after it scores at most as much. -/
theorem pickMax_first_argmax (f : Card → Nat) (l : List Card) : ∀ a : Card,
    ∃ l₁ l₂, a :: l = l₁ ++ pickMax f a l :: l₂ ∧
      (∀ x ∈ l₁, f x < f (pickMax f a l)) ∧
      (∀ x ∈ l₂, f x ≤ f (pickMax f a l)) := by
  induction l with
  | nil =>
    intro a
    exact ⟨[], [], rfl, by simp, by simp⟩
  | cons b tl ih =>
    intro a
    by_cases h : f b > f a
    · rw [pickMax_cons_pos f a b tl h]
      obtain ⟨l₁, l₂, heq, h1, h2⟩ := ih b
      have hble : f b ≤ f (pickMax f b tl) := by
        cases l₁ with
        | nil =>
          simp only [List.nil_append] at heq
          exact le_of_eq (congrArg f (List.cons.inj heq).1)
        | cons y ys =>
          simp only [List.cons_append] at heq
          have hy := (List.cons.inj heq).1
          have hlt := h1 y (List.mem_cons_self y ys)
          rw [← hy] at hlt
          exact le_of_lt hlt
      refine ⟨a :: l₁, l₂, ?_, ?_, h2⟩
      · rw [List.cons_append, ← heq]
      · intro x hx
        rcases List.mem_cons.mp hx with rfl | hx
        · exact lt_of_lt_of_le h hble
        · exact h1 x hx
    · rw [pickMax_cons_neg f a b tl h]
      push_neg at h
      obtain ⟨l₁, l₂, heq, h1, h2⟩ := ih a
      cases l₁ with
      | nil =>
        simp only [List.nil_append] at heq
        have ha := (List.cons.inj heq).1
        have hl₂ := (List.cons.inj heq).2
        refine ⟨[], b :: l₂, ?_, by simp, ?_⟩
        · rw [List.nil_append, ← ha, ← hl₂]
        · intro x hx
          rcases List.mem_cons.mp hx with rfl | hx
          · rw [← ha]; exact h
          · exact h2 x hx
      | cons y ys =>
        simp only [List.cons_append] at heq
        have hya := (List.cons.inj heq).1
        have htl := (List.cons.inj heq).2
        have hfa : f a < f (pickMax f a tl) := by
          have hlt := h1 y (List.mem_cons_self y ys)
          rwa [← hya] at hlt
        refine ⟨a :: b :: ys, l₂, ?_, ?_, h2⟩
        · simp only [List.cons_append]
          rw [← htl]
        · intro x hx
          rcases List.mem_cons.mp hx with rfl | hx
          · exact hfa
          · rcases List.mem_cons.mp hx with rfl | hx
            · exact lt_of_le_of_lt h hfa
            · exact h1 x (List.mem_cons_of_mem y hx)

theorem hardPick_filter_cons (aiHand : List Card) (p : Card) (ps : List Card)
    (q : Card) (qs : List Card)
    (hfil : (p :: ps).filter (fun c => decide (c.rank ≠ Rank.eight)) = q :: qs) :
    hardPick aiHand (p :: ps) = some (pickMax (fun c => countSuit aiHand c.suit) q qs) := by
  simp only [hardPick, hfil]
  rfl

/-- Claim C8: under hard difficulty, when the AI has a playable non-eight
card it plays the playable non-eight card whose suit is most frequent in its
current full hand, breaking frequency ties in favor of the first-encountered
candidate in iteration order (the chosen card splits the candidate list with
strictly smaller scores before it and no larger score anywhere); when the
only playable cards are eights, it plays an eight. -/
theorem C8_hard_choice (aiHand : List Card) (topCard : Card) (cs : Option Suit) :
    (∀ q qs,
      (aiPlayableCards aiHand topCard cs).filter (fun c => decide (c.rank ≠ Rank.eight)) =
        q :: qs →
      ∃ ch l₁ l₂,
        hardPick aiHand (aiPlayableCards aiHand topCard cs) = some ch ∧
        ch.rank ≠ Rank.eight ∧
        ch ∈ aiPlayableCards aiHand topCard cs ∧
        q :: qs = l₁ ++ ch :: l₂ ∧
        (∀ x ∈ l₁, countSuit aiHand x.suit < countSuit aiHand ch.suit) ∧
        (∀ x ∈ q :: qs, countSuit aiHand x.suit ≤ countSuit aiHand ch.suit)) ∧
    (∀ p ps,
      aiPlayableCards aiHand topCard cs = p :: ps →
      (aiPlayableCards aiHand topCard cs).filter (fun c => decide (c.rank ≠ Rank.eight)) =
        [] →
      hardPick aiHand (aiPlayableCards aiHand topCard cs) = some p ∧
        p.rank = Rank.eight) := by
  constructor
  · intro q qs hfil
    rcases hP : aiPlayableCards aiHand topCard cs with _ | ⟨p, ps⟩
    · rw [hP] at hfil
      simp at hfil
    · rw [hP] at hfil
      obtain ⟨l₁, l₂, hdec, h1, h2⟩ :=
        pickMax_first_argmax (fun c => countSuit aiHand c.suit) qs q
      have hchq : pickMax (fun c => countSuit aiHand c.suit) q qs ∈ q :: qs := by
        rw [hdec]
        simp
      have hchfil : pickMax (fun c => countSuit aiHand c.suit) q qs ∈
          (p :: ps).filter (fun c => decide (c.rank ≠ Rank.eight)) := by
        rw [hfil]
        exact hchq
      refine ⟨pickMax (fun c => countSuit aiHand c.suit) q qs, l₁, l₂,
        hardPick_filter_cons aiHand p ps q qs hfil, ?_, ?_, hdec, h1, ?_⟩
      · have hd := List.of_mem_filter hchfil
        simpa using hd
      · exact List.mem_of_mem_filter hchfil
      · intro x hx
        rw [hdec] at hx
        rcases List.mem_append.mp hx with hx | hx
        · exact le_of_lt (h1 x hx)
        · rcases List.mem_cons.mp hx with rfl | hx
          · exact le_refl _
          · exact h2 x hx
  · intro p ps hP hfil
    rw [hP] at hfil
    have hall := List.filter_eq_nil_iff.mp hfil
    have hp8 : p.rank = Rank.eight := by
      have := hall p (List.mem_cons_self p ps)
      simpa using this
    refine ⟨?_, hp8⟩
    rw [hP]
    simp only [hardPick, hfil]

/-- Witness for C8 at concrete inputs: with hand nine of hearts, five of
hearts, two of spades against a seven of diamonds top and currentSuit hearts
the two heart cards are the candidates and the first is kept; with a lone
playable eight of clubs it is played. -/
theorem C8_witness :
    (∃ ch l₁ l₂,
      hardPick [c9h, c5h, c2s] (aiPlayableCards [c9h, c5h, c2s] c7d (some Suit.hearts)) =
        some ch ∧
      ch.rank ≠ Rank.eight ∧
      ch ∈ aiPlayableCards [c9h, c5h, c2s] c7d (some Suit.hearts) ∧
      c9h :: [c5h] = l₁ ++ ch :: l₂ ∧
      (∀ x ∈ l₁, countSuit [c9h, c5h, c2s] x.suit < countSuit [c9h, c5h, c2s] ch.suit) ∧
      (∀ x ∈ c9h :: [c5h],
        countSuit [c9h, c5h, c2s] x.suit ≤ countSuit [c9h, c5h, c2s] ch.suit)) ∧
    (hardPick [c8c] (aiPlayableCards [c8c] c7d (some Suit.hearts)) = some c8c ∧
      c8c.rank = Rank.eight) :=
  ⟨(C8_hard_choice [c9h, c5h, c2s] c7d (some Suit.hearts)).1 c9h [c5h] (by decide),
   (C8_hard_choice [c8c] c7d (some Suit.hearts)).2 c8c [] (by decide) (by decide)⟩

theorem findNonEight_concat (fuel : Nat) (l : List Card) (a : Card) :
    findNonEight (fuel + 1) (l ++ [a]) =
      if a.rank = Rank.eight then findNonEight fuel (a :: l) else some (l, a) := by
  simp [findNonEight, List.getLast?_concat, List.dropLast_concat]

/-- A successful run of the initial-discard loop returns a non-eight card
together with a deck that, with the card appended, is a permutation of the
input deck. -/
theorem findNonEight_sound (fuel : Nat) :
    ∀ (deck d : List Card) (c : Card), findNonEight fuel deck = some (d, c) →
      c.rank ≠ Rank.eight ∧ (d ++ [c]).Perm deck := by
  induction fuel with
  | zero =>
    intro deck d c h
    simp [findNonEight] at h
  | succ n ih =>
    intro deck d c h
    rcases deck.eq_nil_or_concat with rfl | ⟨ys, a, rfl⟩
    · simp [findNonEight] at h
    · rw [List.concat_eq_append] at h ⊢
      rw [findNonEight_concat] at h
      by_cases ha : a.rank = Rank.eight
      · rw [if_pos ha] at h
        obtain ⟨h8, hperm⟩ := ih (a :: ys) d c h
        exact ⟨h8, hperm.trans ((List.perm_append_singleton a ys).symm)⟩
      · rw [if_neg ha] at h
        obtain ⟨rfl, rfl⟩ : d = ys ∧ c = a := by
          have hp := Option.some.inj h
          exact ⟨(congrArg Prod.fst hp).symm, (congrArg Prod.snd hp).symm⟩
        exact ⟨ha, List.Perm.refl _⟩

/-- The loop succeeds whenever the deck ends with a non-eight card followed
by a (possibly empty) block of eights shorter than the fuel. -/
theorem findNonEight_isSome (l₂ : List Card) :
    (∀ e ∈ l₂, e.rank = Rank.eight) →
    ∀ (fuel : Nat) (l₁ : List Card) (c : Card), c.rank ≠ Rank.eight →
      l₂.length < fuel → (findNonEight fuel (l₁ ++ c :: l₂)).isSome = true := by
  induction l₂ using List.reverseRecOn with
  | nil =>
    intro _ fuel l₁ c hc hf
    cases fuel with
    | zero => omega
    | succ n =>
      rw [show l₁ ++ c :: ([] : List Card) = l₁ ++ [c] from rfl, findNonEight_concat,
        if_neg hc]
      rfl
  | append_singleton l₂ e ih =>
    intro h8 fuel l₁ c hc hf
    cases fuel with
    | zero => simp at hf
    | succ n =>
      have he : e.rank = Rank.eight := h8 e (by simp)
      rw [show l₁ ++ c :: (l₂ ++ [e]) = (l₁ ++ c :: l₂) ++ [e] by simp,
        findNonEight_concat, if_pos he,
        show e :: (l₁ ++ c :: l₂) = (e :: l₁) ++ c :: l₂ from rfl]
      refine ih (fun x hx => h8 x (by simp [hx])) n (e :: l₁) c hc ?_
      simp only [List.length_append, List.length_singleton] at hf
      omega

/-- Any list with a non-eight card splits as a prefix, a last non-eight card,
and a suffix of eights. -/
theorem exists_last_nonEight (deck : List Card) :
    (∃ c ∈ deck, c.rank ≠ Rank.eight) →
    ∃ l₁ c l₂, deck = l₁ ++ c :: l₂ ∧ c.rank ≠ Rank.eight ∧
      ∀ e ∈ l₂, e.rank = Rank.eight := by
  induction deck using List.reverseRecOn with
  | nil =>
    rintro ⟨c, hc, _⟩
    simp at hc
  | append_singleton ys a ih =>
    rintro ⟨c, hc, hcr⟩
    by_cases ha : a.rank = Rank.eight
    · have hcy : c ∈ ys := by
        rcases List.mem_append.mp hc with h | h
        · exact h
        · simp only [List.mem_singleton] at h
          subst h
          exact absurd ha hcr
      obtain ⟨l₁, c', l₂, heq, hc', h8⟩ := ih ⟨c, hcy, hcr⟩
      refine ⟨l₁, c', l₂ ++ [a], by simp [heq], hc', ?_⟩
      intro e he
      rcases List.mem_append.mp he with h | h
      · exact h8 e h
      · simp only [List.mem_singleton] at h
        subst h
        exact ha
    · exact ⟨ys, a, [], by simp, ha, by simp⟩

theorem createDeck_length : createDeck.length = 52 := by decide

theorem createDeck_ids_nodup : (createDeck.map Card.id).Nodup := by decide

theorem createDeck_nodup : createDeck.Nodup := List.Nodup.of_map Card.id createDeck_ids_nodup

theorem createDeck_eight_count :
    createDeck.countP (fun c => decide (c.rank = Rank.eight)) = 4 := by decide

/-- Claim C4: for every difficulty, dealing from any shuffle of the full deck
succeeds and yields 8 player cards (the head of the shuffled deck), 8 AI
cards (the next 8), a one-card discard pile whose card is never an eight,
currentSuit equal to the suit of that card, 35 cards left in the deck, the
player to move, and status playing. -/
theorem C4_initial_deal (d : Difficulty) (fullDeck : List Card)
    (hp : fullDeck.Perm createDeck) :
    ∃ st c, initGame fullDeck d = some st ∧
      st.playerHand = fullDeck.take 8 ∧
      st.aiHand = (fullDeck.drop 8).take 8 ∧
      st.playerHand.length = 8 ∧
      st.aiHand.length = 8 ∧
      st.discardPile = [c] ∧
      c.rank ≠ Rank.eight ∧
      st.currentSuit = some c.suit ∧
      st.deck.length = 35 ∧
      st.turn = Side.player ∧
      st.status = GameStatus.playing := by
  have hlen : fullDeck.length = 52 := hp.length_eq.trans createDeck_length
  set deck0 := (fullDeck.drop 8).drop 8 with hdeck0
  have hlen0 : deck0.length = 36 := by
    simp [hdeck0, List.length_drop, hlen]
  have hsub : deck0.Sublist fullDeck :=
    (List.drop_sublist 8 (fullDeck.drop 8)).trans (List.drop_sublist 8 fullDeck)
  have hcount : deck0.countP (fun c => decide (c.rank = Rank.eight)) ≤ 4 := by
    calc deck0.countP (fun c => decide (c.rank = Rank.eight))
        ≤ fullDeck.countP (fun c => decide (c.rank = Rank.eight)) := hsub.countP_le _
      _ = createDeck.countP (fun c => decide (c.rank = Rank.eight)) := hp.countP_eq _
      _ = 4 := createDeck_eight_count
  have hex : ∃ c ∈ deck0, c.rank ≠ Rank.eight := by
    by_contra hall
    push_neg at hall
    have hfull : deck0.countP (fun c => decide (c.rank = Rank.eight)) = deck0.length := by
      rw [List.countP_eq_length]
      intro a ha
      simpa using hall a ha
    omega
  obtain ⟨l₁, c0, l₂, hsplit, hc0, h8s⟩ := exists_last_nonEight deck0 hex
  have hfuel : l₂.length < deck0.length := by
    rw [hsplit]
    simp only [List.length_append, List.length_cons]
    omega
  have hsome : (findNonEight deck0.length deck0).isSome = true := by
    conv_lhs => rw [hsplit]
    rw [hsplit] at hfuel
    exact findNonEight_isSome l₂ h8s (l₁ ++ c0 :: l₂).length l₁ c0 hc0 hfuel
  obtain ⟨⟨deck1, c⟩, hfind⟩ := Option.isSome_iff_exists.mp hsome
  obtain ⟨hc8, hperm⟩ := findNonEight_sound deck0.length deck0 deck1 c hfind
  have hd1 : deck1.length = 35 := by
    have hl := hperm.length_eq
    simp only [List.length_append, List.length_singleton, hlen0] at hl
    omega
  have hinit : initGame fullDeck d = some
      { deck := deck1
        playerHand := fullDeck.take 8
        aiHand := (fullDeck.drop 8).take 8
        discardPile := [c]
        currentSuit := some c.suit
        turn := Side.player
        status := GameStatus.playing
        winner := none
        difficulty := d } := by
    simp only [initGame, ← hdeck0, hfind]
  refine ⟨_, c, hinit, rfl, rfl, ?_, ?_, rfl, hc8, rfl, hd1, rfl, rfl⟩
  · rw [List.length_take]
    omega
  · rw [List.length_take, List.length_drop]
    omega

/-- Witness for C4: dealing from the unshuffled full deck. -/
theorem C4_witness :
    ∃ st c, initGame createDeck Difficulty.normal = some st ∧
      st.playerHand = createDeck.take 8 ∧
      st.aiHand = (createDeck.drop 8).take 8 ∧
      st.playerHand.length = 8 ∧
      st.aiHand.length = 8 ∧
      st.discardPile = [c] ∧
      c.rank ≠ Rank.eight ∧
      st.currentSuit = some c.suit ∧
      st.deck.length = 35 ∧
      st.turn = Side.player ∧
      st.status = GameStatus.playing :=
  C4_initial_deal Difficulty.normal createDeck (List.Perm.refl createDeck)

/-- Two states with the same multiset of cards across the four zones carry
permuted card lists. -/
theorem allCards_perm_of_coe (st1 st2 : GameState)
    (h : (st1.deck : Multiset Card) + ↑st1.playerHand + ↑st1.aiHand + ↑st1.discardPile =
      ↑st2.deck + ↑st2.playerHand + ↑st2.aiHand + ↑st2.discardPile) :
    (allCards st1).Perm (allCards st2) := by
  rw [← Multiset.coe_eq_coe]
  simp only [allCards, ← Multiset.coe_add]
  exact h

/-- Filtering one occurrence out by id: when the ids of a list are distinct
and the card is in the list, the id filter removes exactly that card. -/
theorem filter_id_perm (l : List Card) (c : Card) :
    (l.map Card.id).Nodup → c ∈ l →
    ((l.filter (fun x => decide (x.id ≠ c.id))) ++ [c]).Perm l := by
  induction l with
  | nil =>
    intro _ hc
    cases hc
  | cons a t ih =>
    intro hnd hc
    simp only [List.map_cons, List.nodup_cons] at hnd
    rcases List.mem_cons.mp hc with rfl | hct
    · have hft : t.filter (fun x => decide (x.id ≠ c.id)) = t := by
        rw [List.filter_eq_self]
        intro x hx
        simp only [decide_eq_true_eq]
        intro hxe
        exact hnd.1 (hxe ▸ List.mem_map_of_mem Card.id hx)
      have hpa : decide (c.id ≠ c.id) = false := by simp
      rw [List.filter_cons, hpa]
      simp only [Bool.false_eq_true, if_false]
      rw [hft]
      exact List.perm_append_singleton c t
    · have hna : ¬ a.id = c.id := by
        intro hae
        exact hnd.1 (hae ▸ List.mem_map_of_mem Card.id hct)
      have hpa : decide (a.id ≠ c.id) = true := by simpa using hna
      rw [List.filter_cons, if_pos hpa, List.cons_append]
      exact (ih hnd.2 hct).cons a

/-- Every reachable state carries a permutation of the full 52-card deck
across its four zones. -/
theorem reachable_perm (st : GameState) (h : Reachable st) :
    (allCards st).Perm createDeck := by
  induction h with
  | start d fullDeck st hperm hinit =>
    simp only [initGame] at hinit
    rcases hF : findNonEight ((fullDeck.drop 8).drop 8).length ((fullDeck.drop 8).drop 8)
      with _ | ⟨deck1, c⟩
    · rw [hF] at hinit
      simp at hinit
    · rw [hF] at hinit
      simp only [Option.some.injEq] at hinit
      subst hinit
      obtain ⟨hc8, hpermF⟩ := findNonEight_sound _ _ _ _ hF
      refine List.Perm.trans ?_ hperm
      have efd1 : ((fullDeck.take 8 : List Card) : Multiset Card) + ↑(fullDeck.drop 8) =
          ↑fullDeck := by
        rw [Multiset.coe_add, List.take_append_drop]
      have efd2 : (((fullDeck.drop 8).take 8 : List Card) : Multiset Card) +
          ↑((fullDeck.drop 8).drop 8) = ↑(fullDeck.drop 8) := by
        rw [Multiset.coe_add, List.take_append_drop]
      have e1 : ((deck1 : List Card) : Multiset Card) + ↑[c] =
          ↑((fullDeck.drop 8).drop 8) := by
        rw [Multiset.coe_add, Multiset.coe_eq_coe]
        exact hpermF
      rw [← Multiset.coe_eq_coe]
      simp only [allCards, ← Multiset.coe_add]
      rw [← efd1, ← efd2, ← e1]
      abel
  | draw st st' t hr hd ih =>
    by_cases hL : st.deck.length = 0
    · simp only [drawCard] at hd
      rw [if_pos hL] at hd
      have hst := Option.some.inj hd
      subst hst
      simpa [allCards] using ih
    · simp only [drawCard] at hd
      rw [if_neg hL] at hd
      rcases st.deck.eq_nil_or_concat with h0 | ⟨ys, a, hconcat⟩
      · rw [h0] at hL
        simp at hL
      · rw [List.concat_eq_append] at hconcat
        rw [hconcat] at hd
        simp only [List.getLast?_concat, List.dropLast_concat] at hd
        rcases hDP : st.discardPile.getLast? with _ | top
        · rw [hDP] at hd
          simp at hd
        · rw [hDP] at hd
          simp only [Option.some.injEq] at hd
          subst hd
          refine List.Perm.trans (allCards_perm_of_coe _ st ?_) ih
          cases t <;>
            · simp only [setHand, handOf]
              rw [hconcat]
              simp only [← Multiset.coe_add]
              abel
  | play st c t hr hc ih =>
    refine List.Perm.trans ?_ ih
    have hndAll : ((allCards st).map Card.id).Nodup :=
      (ih.map Card.id).nodup_iff.mpr createDeck_ids_nodup
    have hsubl : (handOf st t).Sublist (allCards st) := by
      cases t <;> simp only [allCards, handOf]
      · exact ((List.sublist_append_right st.deck st.playerHand).trans
          (List.sublist_append_left (st.deck ++ st.playerHand) st.aiHand)).trans
          (List.sublist_append_left (st.deck ++ st.playerHand ++ st.aiHand) st.discardPile)
      · exact (List.sublist_append_right (st.deck ++ st.playerHand) st.aiHand).trans
          (List.sublist_append_left (st.deck ++ st.playerHand ++ st.aiHand) st.discardPile)
    have hnd : ((handOf st t).map Card.id).Nodup :=
      List.Nodup.sublist (hsubl.map Card.id) hndAll
    have hfil := filter_id_perm (handOf st t) c hnd hc
    have e : (((handOf st t).filter (fun x => decide (x.id ≠ c.id)) : List Card) :
        Multiset Card) + ↑[c] = ↑(handOf st t) := by
      rw [Multiset.coe_add, Multiset.coe_eq_coe]
      exact hfil
    cases t
    · simp only [handOf] at e
      rw [← Multiset.coe_eq_coe]
      simp only [playCard, handOf]
      split <;>
        · simp only [allCards, setHand]
          simp only [← Multiset.coe_add]
          rw [← e]
          abel
    · simp only [handOf] at e
      rw [← Multiset.coe_eq_coe]
      simp only [playCard, handOf]
      split <;>
        · simp only [allCards, setHand]
          simp only [← Multiset.coe_add]
          rw [← e]
          abel
  | choose st s hr ih =>
    simpa [allCards, selectSuit] using ih

/-- Claim C1: after any sequence of Start, Draw, Play and ChooseSuit
operations from a fresh deal, the four zones together hold exactly the 52
distinct cards of the full deck: their concatenation is a permutation of
createDeck, no card is duplicated, and the four sizes sum to 52. -/
theorem C1_card_conservation (st : GameState) (h : Reachable st) :
    (allCards st).Perm createDeck ∧ (allCards st).Nodup ∧
    st.deck.length + st.playerHand.length + st.aiHand.length +
      st.discardPile.length = 52 := by
  have hp := reachable_perm st h
  refine ⟨hp, hp.nodup_iff.mpr createDeck_nodup, ?_⟩
  have hl := hp.length_eq
  rw [createDeck_length] at hl
  simp only [allCards, List.length_append] at hl
  omega

/-- The state dealt from the unshuffled full deck, used as a witness. -/
def st0 : GameState := (initGame createDeck Difficulty.normal).getD default

/-- Witness for C1: the fresh deal from the unshuffled deck is reachable and
conserves the 52 cards. -/
theorem C1_witness :
    (allCards st0).Perm createDeck ∧ (allCards st0).Nodup ∧
    st0.deck.length + st0.playerHand.length + st0.aiHand.length +
      st0.discardPile.length = 52 :=
  C1_card_conservation st0
    (Reachable.start Difficulty.normal createDeck st0 (List.Perm.refl createDeck) (by rfl))

/-- Witness for C2: the shared predicate evaluated at a concrete unplayable
and a concrete playable pairing. -/
theorem C2_witness :
    drawSiteCanPlay cAh c5c (some Suit.clubs) = aiSiteCanPlay cAh c5c (some Suit.clubs) ∧
    aiSiteCanPlay cAh c5c (some Suit.clubs) =
      humanSiteCanPlay cAh (some c5c) (some Suit.clubs) ∧
    (aiSiteCanPlay cAh c5c (some Suit.clubs) = true ↔
      (cAh.rank = Rank.eight ∨ cAh.rank = c5c.rank ∨ some Suit.clubs = some cAh.suit)) ∧
    drawSiteCanPlay cAh c5c (some Suit.clubs) = isPlayable cAh c5c Suit.clubs :=
  C2_playability_single_predicate cAh c5c (some Suit.clubs) Suit.clubs
